import Mathlib

/-!
Verification of the GZWhisper transcription job orchestration engine
(`src/linux/gzwhisper_linux.py`) against its natural-language specification.

The Python data model and operations are shallowly embedded as executable
Lean definitions.  Timestamps and media durations are modelled as exact
rationals (the code uses POSIX float timestamps; only their ordering and
the ETA arithmetic matter to the claims).  Job states, which the code keeps
as lowercase strings compared against fixed literals, are modelled by a
four-constructor inductive type; persisted documents, whose `state` field
may hold an arbitrary string, keep `state` as a `String`.
-/

namespace GZWhisper

/-- Job lifecycle states, the fixed strings `"queued"`, `"processing"`,
`"completed"`, `"failed"` of the Python code. -/
inductive JobState
  | queued
  | processing
  | completed
  | failed
deriving DecidableEq, Repr

/-- Embedding of the `TranscriptHistoryItem` dataclass. -/
structure TranscriptHistoryItem where
  id : String
  source_file_name : String
  source_file_path : String
  created_at : ℚ
  media_duration_seconds : Option ℚ := none
  transcript_path : Option String := none
  detected_language : Option String := none
  model_id : Option String := none
  state : JobState := .queued
  error_message : Option String := none
  progress_fraction : Option ℚ := none
  eta_seconds : Option ℚ := none
  is_runtime_only : Bool := false
deriving DecidableEq, Repr

/-- The character-list core of Python `str.strip()`: drop whitespace from
both ends. -/
def strip_chars (l : List Char) : List Char :=
  ((l.dropWhile Char.isWhitespace).reverse.dropWhile Char.isWhitespace).reverse

/-- Python `str.strip()` (kernel-executable embedding). -/
def py_strip (s : String) : String := ⟨strip_chars s.data⟩

/-- Python `str.lower()` (kernel-executable embedding, ASCII case mapping). -/
def py_lower (s : String) : String := ⟨s.data.map Char.toLower⟩

/-- `TranscriptHistoryItem.is_terminal`: `state in {"completed", "failed"}`. -/
def TranscriptHistoryItem.is_terminal (item : TranscriptHistoryItem) : Bool :=
  item.state = .completed ∨ item.state = .failed

/-- The sort key used by `_sort_history` (`parse_iso_datetime(item.created_at)`;
ISO-8601 order on the stored strings coincides with timestamp order). -/
def histSortKey (item : TranscriptHistoryItem) : ℚ :=
  item.created_at

/-- The display order of `_sort_history`: `reverse=True` on the `created_at`
key, i.e. most recent first. -/
def histOrder (a b : TranscriptHistoryItem) : Prop :=
  histSortKey b ≤ histSortKey a

instance : DecidableRel histOrder := fun a b =>
  inferInstanceAs (Decidable (histSortKey b ≤ histSortKey a))

instance : IsTotal TranscriptHistoryItem histOrder :=
  ⟨fun a b => le_total (histSortKey b) (histSortKey a)⟩

instance : IsTrans TranscriptHistoryItem histOrder :=
  ⟨fun _ _ _ h1 h2 => le_trans h2 h1⟩

/-- `_sort_history`: `self.history_items.sort(key=..., reverse=True)`
(a stable sort into most-recent-first order). -/
def sort_history (items : List TranscriptHistoryItem) : List TranscriptHistoryItem :=
  List.insertionSort histOrder items

/-- Number of jobs in state `"queued"` (`_queue_count`). -/
def count_queued (items : List TranscriptHistoryItem) : Nat :=
  items.countP (fun i => decide (i.state = .queued))

/-- Number of jobs in state `"processing"`. -/
def count_processing (items : List TranscriptHistoryItem) : Nat :=
  items.countP (fun i => decide (i.state = .processing))

/-! ## History persistence (`_persist_history_to_disk`, `_load_history_from_disk`) -/

/-- The transient-field scrub applied to each persisted record: the payload is
written with `progress_fraction`, `eta_seconds` nulled and
`is_runtime_only` false. -/
def scrub_transient (item : TranscriptHistoryItem) : TranscriptHistoryItem :=
  { item with progress_fraction := none, eta_seconds := none, is_runtime_only := false }

/-- `_persist_history_to_disk`: the document written to disk, a full
replacement containing exactly the terminal jobs — all `failed` jobs and
those `completed` jobs whose `transcript_path` is truthy (present and
non-empty) — each with transient fields nulled. -/
def persist_history_to_disk (items : List TranscriptHistoryItem) : List TranscriptHistoryItem :=
  items.filterMap (fun item =>
    if item.state ≠ .completed ∧ item.state ≠ .failed then none
    else if item.state = .completed ∧ (item.transcript_path = none ∨ item.transcript_path = some "") then none
    else some (scrub_transient item))

/-- A record of the on-disk history document: same fields as
`TranscriptHistoryItem`, but `state` is an arbitrary stored string. -/
structure RawHistoryEntry where
  id : String
  source_file_name : String
  source_file_path : String
  created_at : ℚ
  media_duration_seconds : Option ℚ := none
  transcript_path : Option String := none
  detected_language : Option String := none
  model_id : Option String := none
  state : String := "queued"
  error_message : Option String := none
  progress_fraction : Option ℚ := none
  eta_seconds : Option ℚ := none
  is_runtime_only : Bool := false
deriving DecidableEq, Repr

/-- The per-entry normalisation of `_load_history_from_disk`: transient fields
are reset, and any entry whose stored state is not terminal is coerced to
`failed` with the synthetic error message `failed_label` (the code passes the
localized `status_failed` label, e.g. `"Failed"`). -/
def load_entry (failed_label : String) (e : RawHistoryEntry) : TranscriptHistoryItem :=
  let base : TranscriptHistoryItem :=
    { id := e.id
      source_file_name := e.source_file_name
      source_file_path := e.source_file_path
      created_at := e.created_at
      media_duration_seconds := e.media_duration_seconds
      transcript_path := e.transcript_path
      detected_language := e.detected_language
      model_id := e.model_id
      state := .queued
      error_message := e.error_message
      progress_fraction := none
      eta_seconds := none
      is_runtime_only := false }
  if e.state = "completed" then { base with state := .completed }
  else if e.state = "failed" then { base with state := .failed }
  else { base with state := .failed, error_message := some failed_label }

/-- `_load_history_from_disk`: `none` models an absent (or unreadable,
or non-array) history document, which yields the empty history; a present
document yields its entries normalised by `load_entry`. -/
def load_history_from_disk (failed_label : String)
    (doc : Option (List RawHistoryEntry)) : List TranscriptHistoryItem :=
  match doc with
  | none => []
  | some entries => entries.map (load_entry failed_label)

/-! ## Deletion (`delete_selected_history_item`) -/

/-- Outcome of a delete request.  `removed file` records the
`transcript_path` whose backing file the code then best-effort unlinks
(when present and non-empty). -/
inductive DeleteOutcome
  | noSelection
  | blocked
  | removed (file : Option String)
deriving DecidableEq, Repr

/-- `delete_selected_history_item`: refuses to delete a `processing` job
(leaving the collection untouched); otherwise best-effort deletes the
backing transcript file and removes the entry from the collection. -/
def delete_selected_history_item (items : List TranscriptHistoryItem)
    (selected_id : Option String) : DeleteOutcome × List TranscriptHistoryItem :=
  match selected_id with
  | none => (.noSelection, items)
  | some sid =>
    match items.find? (fun i => i.id == sid) with
    | none => (.noSelection, items)
    | some item =>
      if item.state = .processing then (.blocked, items)
      else (.removed item.transcript_path, items.filter (fun c => !(c.id == item.id)))

/-! ## Progress estimation (`_apply_transcription_progress`) -/

/-- The pure (fraction, eta) estimate that `_apply_transcription_progress`
writes onto the job record.  Mirrors the code:
`if total_seconds and total_seconds > 0`, `fraction = min(max(p/t, 0), 1)`,
`elapsed = max(now - started_at, 0)`, and
`eta = max(elapsed * (1 - fraction) / fraction, 0)` only when
`fraction > 0.02`. -/
def apply_transcription_progress (processed_seconds : ℚ) (total_seconds : Option ℚ)
    (now started_at : ℚ) : Option ℚ × Option ℚ :=
  match total_seconds with
  | some total =>
    if 0 < total then
      let fraction := min (max (processed_seconds / total) 0) 1
      let elapsed := max (now - started_at) 0
      (some fraction,
        if 1 / 50 < fraction then some (max (elapsed * (1 - fraction) / fraction) 0)
        else none)
    else (none, none)
  | none => (none, none)

/-! ## Enqueueing (`_add_media_files`, `_is_supported_media_file`) -/

/-- An input path as the validation sees it: its (already extracted) suffix
and whether it resolves to a regular file. -/
structure MediaPath where
  path : String
  suffix : String
  isFile : Bool
deriving DecidableEq, Repr

/-- `SUPPORTED_MEDIA_EXTENSIONS`. -/
def SUPPORTED_MEDIA_EXTENSIONS : List String :=
  [".mp3", ".wav", ".m4a", ".aac", ".flac", ".ogg", ".opus",
   ".mp4", ".mkv", ".mov", ".avi", ".webm", ".m4v"]

/-- `_is_supported_media_file`: `path.suffix.lower() in SUPPORTED_MEDIA_EXTENSIONS`. -/
def is_supported_media_file (p : MediaPath) : Bool :=
  SUPPORTED_MEDIA_EXTENSIONS.contains (py_lower p.suffix)

/-- The accepted candidates of `_add_media_files`: existing regular files
with a supported extension. -/
def media_candidates (paths : List MediaPath) : List MediaPath :=
  paths.filter (fun p => p.isFile && is_supported_media_file p)

/-- The user-visible status report of `_add_media_files`:
either the `status_unsupported_files` notice or `status_files_added`
formatted with the count of accepted files. -/
inductive AddStatus
  | unsupported
  | filesAdded (count : Nat)
deriving DecidableEq, Repr

/-- The number of rejected input paths (paths that produced no job). -/
def rejected_count (paths : List MediaPath) : Nat :=
  paths.length - (media_candidates paths).length

/-- `_add_media_files`: validates each path, appends one fresh `queued` job
per accepted path (with `created_at = now + offset * 0.001`), and reports a
status message.  `mk_id` models `uuid.uuid4()` id generation. -/
def add_media_files (items : List TranscriptHistoryItem) (now : ℚ)
    (mk_id : Nat → String) (paths : List MediaPath) :
    List TranscriptHistoryItem × AddStatus :=
  let candidates := media_candidates paths
  if candidates.isEmpty then (items, .unsupported)
  else
    (items ++ candidates.enum.map (fun x =>
      { id := mk_id x.1
        source_file_name := x.2.path
        source_file_path := x.2.path
        created_at := now + (x.1 : ℚ) / 1000
        media_duration_seconds := none
        state := .queued
        is_runtime_only := true }),
     .filesAdded candidates.length)

/-! ## Worker protocol outcome classification
(`_run_worker_streaming` and the terminal check in `transcribe_all_queued_files`,
lines 1511-1521) -/

/-- The fields of a terminal protocol message (a decoded stdout JSON object
containing key `ok`); non-`ok` fields are absent when the key is missing. -/
structure WorkerPayload where
  ok : Bool
  error : Option String := none
  details : Option String := none
  text : Option String := none
  model_id : Option String := none
  language : Option String := none
deriving DecidableEq, Repr

/-- Python `str(x)` applied to the result of `dict.get(key)` for a string
field: a missing key yields the literal text `"None"`. -/
def py_str_of_get : Option String → String
  | none => "None"
  | some s => s

/-- Python `a or b` on strings: the empty string is falsy. -/
def py_or (a b : String) : String :=
  if a = "" then b else a

/-- The classified outcome of one worker invocation: either the terminal
payload, or the failure `message`/`details` pair from which the code raises
`RuntimeError(f"{message}\n{details}".strip())`. -/
inductive WorkerOutcome
  | success (payload : WorkerPayload)
  | failure (message : String) (details : String)
deriving DecidableEq, Repr

/-- The text of the `RuntimeError` raised on a failure outcome. -/
def raised_error_text (message details : String) : String :=
  py_strip (message ++ "\n" ++ details)

/-- Embedding of the terminal check after `_run_worker_streaming` returns
(lines 1511-1521): success requires exit code 0 together with a terminal
message whose `ok` is true; otherwise the failure message falls back through
`str(final_payload.get("error") if final_payload else "")`, the stripped
stderr buffer, and the localized `fallback_message`
(`error_transcription_failed`), and `details` is taken from the payload when
truthy. -/
def classify_worker_result (exit_code : Int) (final_payload : Option WorkerPayload)
    (stderr_output : String) (fallback_message : String) : WorkerOutcome :=
  match final_payload with
  | some p =>
    if exit_code = 0 ∧ p.ok then .success p
    else
      .failure (py_or (py_or (py_str_of_get p.error) (py_strip stderr_output)) fallback_message)
        (p.details.getD "")
  | none =>
    .failure (py_or (py_strip stderr_output) fallback_message) ""

/-! ## Claiming and terminal transitions
(`_claim_next_queued_item`, `_finish_history_item_success`,
`_finish_history_item_failure`) -/

/-- The in-place mutation `_claim_next_queued_item` performs on the first
queued item it finds. -/
def claim_mark (i : TranscriptHistoryItem) : TranscriptHistoryItem :=
  { i with state := .processing, progress_fraction := none, eta_seconds := none,
           error_message := none, is_runtime_only := true }

/-- `_claim_next_queued_item`: scans `history_items` in list order, marks the
first `queued` item `processing` and returns it; returns `none` (changing
nothing) when no item is queued.  The pair is (claimed item, updated list). -/
def claim_next_queued_item :
    List TranscriptHistoryItem → Option TranscriptHistoryItem × List TranscriptHistoryItem
  | [] => (none, [])
  | i :: rest =>
    if i.state = .queued then
      (some (claim_mark i), claim_mark i :: rest)
    else
      let r := claim_next_queued_item rest
      (r.1, i :: r.2)

/-- Replace the first element satisfying `p` by its image under `f`
(Python mutates the object returned by `_find_history_item`, i.e. the first
list element with the given id). -/
def update_first {α : Type} (p : α → Bool) (f : α → α) : List α → List α
  | [] => []
  | a :: rest => if p a then f a :: rest else a :: update_first p f rest

/-- The field updates `_finish_history_item_success` applies to the finished
item: note that `created_at` is overwritten with the completion timestamp. -/
def success_mark (completed_at : ℚ) (transcript_path mid language : String)
    (i : TranscriptHistoryItem) : TranscriptHistoryItem :=
  { i with state := .completed
           created_at := completed_at
           transcript_path := some transcript_path
           detected_language := some language
           model_id := some mid
           error_message := none
           progress_fraction := some 1
           eta_seconds := none
           is_runtime_only := false }

/-- `_finish_history_item_success` restricted to its effect on the job
collection (the editor/status side effects are UI state). -/
def finish_history_item_success (items : List TranscriptHistoryItem) (item_id : String)
    (completed_at : ℚ) (transcript_path mid language : String) : List TranscriptHistoryItem :=
  update_first (fun i => i.id == item_id) (success_mark completed_at transcript_path mid language) items

/-- The field updates `_finish_history_item_failure` applies to the failed item. -/
def failure_mark (msg : String) (i : TranscriptHistoryItem) : TranscriptHistoryItem :=
  { i with state := .failed, error_message := some msg,
           progress_fraction := none, eta_seconds := none, is_runtime_only := false }

/-- `_finish_history_item_failure` restricted to its effect on the job
collection. -/
def finish_history_item_failure (items : List TranscriptHistoryItem) (item_id : String)
    (msg : String) : List TranscriptHistoryItem :=
  update_first (fun i => i.id == item_id) (failure_mark msg) items

/-! ## The batch loop (`transcribe_all_queued_files`) -/

/-- The environment a batch run observes: the file system, the worker process
behaviour per claimed job (keyed by job id), the completion clock, the
generated transcript file names, and the fixed localized strings and model
reference.  This packages the external collaborators of the loop body. -/
structure BatchEnv where
  file_exists : String → Bool
  worker_exit : String → Int
  worker_payload : String → Option WorkerPayload
  worker_stderr : String → String
  finish_time : String → ℚ
  transcript_path_for : String → String
  missing_message : String → String
  fallback_message : String
  model_reference_id : String

/-- One iteration body of the batch loop for an already claimed item `j`:
a missing source file fails the job without invoking the worker; otherwise
the worker result is classified, and the job is finished with success fields
(`model_id` and `language` fall back like the code's `str(... or ...)`) or
with the raised failure message. -/
def run_batch_step (env : BatchEnv) (j : TranscriptHistoryItem)
    (items : List TranscriptHistoryItem) : List TranscriptHistoryItem :=
  if env.file_exists j.source_file_path then
    match classify_worker_result (env.worker_exit j.id) (env.worker_payload j.id)
        (env.worker_stderr j.id) env.fallback_message with
    | .success p =>
      finish_history_item_success items j.id (env.finish_time j.id)
        (env.transcript_path_for j.id)
        (py_or (p.model_id.getD "") env.model_reference_id)
        (py_or (p.language.getD "") "-")
    | .failure m d =>
      finish_history_item_failure items j.id (raised_error_text m d)
  else
    finish_history_item_failure items j.id (env.missing_message j.source_file_name)

/-- The drain loop of `transcribe_all_queued_files`: repeatedly claim the
next queued item and resolve it terminally; the batch ends when
`claim_next_queued_item` finds none.  `fuel` bounds the iterations (the
caller passes the queue length, which suffices because every iteration
terminalises one queued job and never re-queues anything). -/
def run_batch_loop (env : BatchEnv) : Nat → List TranscriptHistoryItem → List TranscriptHistoryItem
  | 0, items => items
  | fuel + 1, items =>
    match claim_next_queued_item items with
    | (none, items') => items'
    | (some j, items') => run_batch_loop env fuel (run_batch_step env j items')

/-- `transcribe_all_queued_files` (the state evolution of one whole batch
run, with every posted UI callback applied). -/
def transcribe_all_queued_files (env : BatchEnv)
    (items : List TranscriptHistoryItem) : List TranscriptHistoryItem :=
  run_batch_loop env (count_queued items) items

/-! ## Interleavings of store operations (for the single-Processing invariant)

The operations that touch the shared `history_items` collection, as atomic
events: UI-thread enqueue (`_add_media_files` creates each job `queued`) and
delete, the worker-thread claim, the UI-thread terminal transitions (which the
worker thread only posts, so they run later), and the display re-sort. -/

/-- One atomic operation on the job collection. -/
inductive StoreOp
  | enqueueOp (item : TranscriptHistoryItem)
  | claimOp
  | finishSuccessOp (item_id : String) (completed_at : ℚ) (transcript_path mid language : String)
  | finishFailureOp (item_id : String) (msg : String)
  | deleteOp (selected_id : String)
  | resortOp
deriving Repr

/-- The (deterministic) effect of each operation on the collection. -/
def exec_store_op : StoreOp → List TranscriptHistoryItem → List TranscriptHistoryItem
  | .enqueueOp item, items => items ++ [{ item with state := .queued }]
  | .claimOp, items => (claim_next_queued_item items).2
  | .finishSuccessOp item_id completed_at tp mid language, items =>
    finish_history_item_success items item_id completed_at tp mid language
  | .finishFailureOp item_id msg, items => finish_history_item_failure items item_id msg
  | .deleteOp selected_id, items => (delete_selected_history_item items (some selected_id)).2
  | .resortOp, items => sort_history items

/-- Run a sequence of operations (an interleaving) from an initial collection. -/
def exec_store_ops (ops : List StoreOp) (items : List TranscriptHistoryItem) :
    List TranscriptHistoryItem :=
  ops.foldl (fun s op => exec_store_op op s) items

/-- One step of the guarded discipline: any operation may fire, except that a
claim requires that no job is currently `processing` — the sequencing the
orchestrator loop enforces when each posted terminal transition has been
applied before the next claim. -/
inductive GuardedStoreStep : List TranscriptHistoryItem → List TranscriptHistoryItem → Prop
  | enqueue (item : TranscriptHistoryItem) (s : List TranscriptHistoryItem) :
      GuardedStoreStep s (exec_store_op (.enqueueOp item) s)
  | claim (s : List TranscriptHistoryItem) (h : count_processing s = 0) :
      GuardedStoreStep s (exec_store_op .claimOp s)
  | finishSuccess (item_id : String) (completed_at : ℚ) (tp mid language : String)
      (s : List TranscriptHistoryItem) :
      GuardedStoreStep s (exec_store_op (.finishSuccessOp item_id completed_at tp mid language) s)
  | finishFailure (item_id msg : String) (s : List TranscriptHistoryItem) :
      GuardedStoreStep s (exec_store_op (.finishFailureOp item_id msg) s)
  | deleteStep (selected_id : String) (s : List TranscriptHistoryItem) :
      GuardedStoreStep s (exec_store_op (.deleteOp selected_id) s)
  | resort (s : List TranscriptHistoryItem) :
      GuardedStoreStep s (exec_store_op .resortOp s)

/-- States reachable under the guarded discipline. -/
def GuardedReachable : List TranscriptHistoryItem → List TranscriptHistoryItem → Prop :=
  Relation.ReflTransGen GuardedStoreStep

/-! ## Helper lemmas -/

theorem update_first_append {α : Type} (p : α → Bool) (f : α → α) (pre : List α) (i : α)
    (post : List α) (hpre : ∀ k ∈ pre, p k = false) (hi : p i = true) :
    update_first p f (pre ++ i :: post) = pre ++ f i :: post := by
  induction pre with
  | nil => simp [update_first, hi]
  | cons a rest ih =>
    have ha : p a = false := hpre a (by simp)
    simp only [List.cons_append, update_first, ha, Bool.false_eq_true, if_false,
      List.cons.injEq, true_and]
    exact ih (fun k hk => hpre k (by simp [hk]))

theorem mem_of_mem_enum {α : Type} {x : Nat × α} {l : List α} (h : x ∈ l.enum) : x.2 ∈ l := by
  induction l generalizing x with
  | nil => simp [List.enum] at h
  | cons a rest ih =>
    rcases x with ⟨n, b⟩
    rw [List.mem_enum_iff_getElem?] at h
    exact List.mem_iff_getElem?.mpr ⟨n, h⟩

/-! ## Claim C5 — crash-safe load -/

/-- C5: `load()` (`_load_history_from_disk`) yields the empty history when the
document is absent; every loaded job is terminal; and every entry whose stored
state is neither `"completed"` nor `"failed"` is rewritten to `failed` with the
synthetic error label. -/
theorem c5_load_coerces_to_terminal (failed_label : String) :
    (load_history_from_disk failed_label none = []) ∧
    (∀ entries : List RawHistoryEntry, ∀ j ∈ load_history_from_disk failed_label (some entries),
       j.state = .completed ∨ j.state = .failed) ∧
    (∀ entries : List RawHistoryEntry, ∀ e ∈ entries,
       e.state ≠ "completed" → e.state ≠ "failed" →
       (load_entry failed_label e).state = .failed ∧
       (load_entry failed_label e).error_message = some failed_label ∧
       load_entry failed_label e ∈ load_history_from_disk failed_label (some entries)) := by
  refine ⟨rfl, ?_, ?_⟩
  · intro entries j hj
    simp only [load_history_from_disk, List.mem_map] at hj
    obtain ⟨e, _, rfl⟩ := hj
    unfold load_entry
    split_ifs <;> simp
  · intro entries e he h1 h2
    refine ⟨?_, ?_, ?_⟩
    · simp [load_entry, h1, h2]
    · simp [load_entry, h1, h2]
    · simp only [load_history_from_disk, List.mem_map]
      exact ⟨e, he, rfl⟩

/-- A persisted entry whose stored state is the non-terminal `"processing"`. -/
def raw_processing_entry : RawHistoryEntry :=
  { id := "x", source_file_name := "a.mp3", source_file_path := "/a.mp3",
    created_at := 1, state := "processing" }

/-- Witness for C5: a document holding a single entry stuck in state
`"processing"` loads as a single `failed` job carrying the synthetic label. -/
theorem c5_witness :
    (load_entry "Failed" raw_processing_entry).state = .failed ∧
    (load_entry "Failed" raw_processing_entry).error_message = some "Failed" := by
  have h := (c5_load_coerces_to_terminal "Failed").2.2
    [raw_processing_entry] raw_processing_entry (by simp) (by decide) (by decide)
  exact ⟨h.1, h.2.1⟩

/-! ## Claim C6 — persistence writes exactly the terminal jobs -/

/-- C6: the persisted document contains exactly the terminal jobs — every
`failed` job and every `completed` job with a present, non-empty
`transcript_path` — each scrubbed of the transient fields
(`progress_fraction` and `eta_seconds` written as null); `queued` and
`processing` jobs, and `completed` jobs without a transcript path, are
omitted. -/
theorem c6_persist_exactly_terminal (items : List TranscriptHistoryItem) :
    (∀ j, j ∈ persist_history_to_disk items ↔
       ∃ i ∈ items,
         (i.state = .failed ∨
          (i.state = .completed ∧ i.transcript_path ≠ none ∧ i.transcript_path ≠ some "")) ∧
         j = scrub_transient i) ∧
    (∀ j ∈ persist_history_to_disk items,
       j.progress_fraction = none ∧ j.eta_seconds = none ∧
       (j.state = .completed ∨ j.state = .failed)) := by
  have hkeep : ∀ (i j : TranscriptHistoryItem),
      ((if i.state ≠ .completed ∧ i.state ≠ .failed then none
        else if i.state = .completed ∧ (i.transcript_path = none ∨ i.transcript_path = some "")
          then none
        else some (scrub_transient i)) = some j) ↔
      ((i.state = .failed ∨
        (i.state = .completed ∧ i.transcript_path ≠ none ∧ i.transcript_path ≠ some "")) ∧
       j = scrub_transient i) := by
    intro i j
    split_ifs with h1 h2
    · simp only [reduceCtorEq, false_iff, not_and]
      intro hk
      rcases hk with hk | hk
      · exact absurd hk h1.2
      · exact absurd hk.1 h1.1
    · rcases h2 with ⟨hc, hp⟩
      simp only [reduceCtorEq, false_iff, not_and]
      intro hk
      rcases hk with hk | hk
      · rw [hc] at hk; exact absurd hk (by simp)
      · rcases hp with hp | hp
        · exact absurd hp hk.2.1
        · exact absurd hp hk.2.2
    · rw [not_and_or, not_not, not_not] at h1
      constructor
      · intro hj
        refine ⟨?_, (Option.some_inj.mp hj).symm⟩
        rcases h1 with h1 | h1
        · right
          refine ⟨h1, ?_, ?_⟩
          · intro hn; exact h2 ⟨h1, Or.inl hn⟩
          · intro hn; exact h2 ⟨h1, Or.inr hn⟩
        · exact Or.inl h1
      · rintro ⟨-, rfl⟩; rfl
  constructor
  · intro j
    simp only [persist_history_to_disk, List.mem_filterMap]
    constructor
    · rintro ⟨i, hi, hij⟩
      exact ⟨i, hi, (hkeep i j).mp hij⟩
    · rintro ⟨i, hi, hcond⟩
      exact ⟨i, hi, (hkeep i j).mpr hcond⟩
  · intro j hj
    simp only [persist_history_to_disk, List.mem_filterMap] at hj
    obtain ⟨i, hi, hij⟩ := hj
    obtain ⟨hcond, rfl⟩ := (hkeep i j).mp hij
    refine ⟨rfl, rfl, ?_⟩
    rcases hcond with h | h
    · exact Or.inr h
    · exact Or.inl h.1

/-- A `failed` job still carrying a stale progress fraction. -/
def failed_sample_item : TranscriptHistoryItem :=
  { id := "x", source_file_name := "a.mp3", source_file_path := "/a.mp3",
    created_at := 1, state := .failed, progress_fraction := some (1/2) }

/-- Witness for C6: a concrete `failed` job (with a stale progress fraction)
is persisted, scrubbed of its transient fields. -/
theorem c6_witness :
    scrub_transient failed_sample_item ∈ persist_history_to_disk [failed_sample_item] :=
  ((c6_persist_exactly_terminal _).1 _).mpr ⟨_, by simp, Or.inl rfl, rfl⟩

/-! ## Claim C7 — deletion -/

/-- C7: deleting the selected job fails with `blocked` (`DeleteBlocked`) and
leaves the collection unchanged when the job is `processing`; otherwise the
entry is removed from the collection (no job with its id remains) and the
outcome carries its `transcript_path` for the best-effort file deletion. -/
theorem c7_delete_blocked_or_removes (items : List TranscriptHistoryItem)
    (sid : String) (item : TranscriptHistoryItem)
    (hfind : items.find? (fun i => i.id == sid) = some item) :
    (item.state = .processing →
       delete_selected_history_item items (some sid) = (.blocked, items)) ∧
    (item.state ≠ .processing →
       (delete_selected_history_item items (some sid)).1 = .removed item.transcript_path ∧
       (delete_selected_history_item items (some sid)).2
         = items.filter (fun c => !(c.id == item.id)) ∧
       ∀ j ∈ (delete_selected_history_item items (some sid)).2, j.id ≠ item.id) := by
  constructor
  · intro hp
    simp [delete_selected_history_item, hfind, hp]
  · intro hp
    have hres : delete_selected_history_item items (some sid)
        = (.removed item.transcript_path, items.filter (fun c => !(c.id == item.id))) := by
      simp [delete_selected_history_item, hfind, hp]
    refine ⟨by rw [hres], by rw [hres], ?_⟩
    intro j hj
    rw [hres] at hj
    have := List.of_mem_filter hj
    simpa using this

/-- A job currently being transcribed. -/
def processing_sample_item : TranscriptHistoryItem :=
  { id := "p", source_file_name := "a.mp3", source_file_path := "/a.mp3",
    created_at := 1, state := .processing }

/-- A completed job with a backing transcript file. -/
def completed_sample_item : TranscriptHistoryItem :=
  { id := "c", source_file_name := "b.mp3", source_file_path := "/b.mp3",
    created_at := 2, state := .completed, transcript_path := some "/t/b.txt" }

/-- Witness for C7: deleting a `processing` job is blocked and changes
nothing; deleting a `completed` job removes it and reports its transcript
file for deletion. -/
theorem c7_witness :
    delete_selected_history_item [processing_sample_item, completed_sample_item] (some "p")
      = (.blocked, [processing_sample_item, completed_sample_item]) ∧
    (delete_selected_history_item [processing_sample_item, completed_sample_item] (some "c")).1
      = .removed (some "/t/b.txt") := by
  constructor
  · exact (c7_delete_blocked_or_removes _ "p" processing_sample_item (by decide)).1 rfl
  · exact (c7_delete_blocked_or_removes _ "c" completed_sample_item (by decide)).2
      (by decide) |>.1

/-! ## Claim C8 — progress and ETA estimation -/

/-- C8: with a known positive total the estimator reports
`fraction = clamp(processed/total, 0, 1)`; when that fraction exceeds `0.02`
and the clock has not gone backwards it reports
`eta = elapsed * (1 - fraction) / fraction` with `elapsed = now - started_at`,
and no eta otherwise; with an unknown or non-positive total it reports
neither fraction nor eta. -/
theorem c8_progress_eta (processed total now started : ℚ) :
    (apply_transcription_progress processed none now started = (none, none)) ∧
    (total ≤ 0 → apply_transcription_progress processed (some total) now started = (none, none)) ∧
    (0 < total →
       (apply_transcription_progress processed (some total) now started).1
         = some (min (max (processed / total) 0) 1)) ∧
    (0 < total → started ≤ now → 1 / 50 < min (max (processed / total) 0) 1 →
       (apply_transcription_progress processed (some total) now started).2
         = some ((now - started) * (1 - min (max (processed / total) 0) 1)
             / min (max (processed / total) 0) 1)) ∧
    (0 < total → min (max (processed / total) 0) 1 ≤ 1 / 50 →
       (apply_transcription_progress processed (some total) now started).2 = none) := by
  refine ⟨rfl, ?_, ?_, ?_, ?_⟩
  · intro h
    simp [apply_transcription_progress, not_lt.mpr h]
  · intro h
    simp [apply_transcription_progress, h]
  · intro h hnow hfrac
    have hfpos : 0 < min (max (processed / total) 0) 1 := lt_trans (by norm_num) hfrac
    have hfle : min (max (processed / total) 0) 1 ≤ 1 := min_le_right _ _
    have helapsed : max (now - started) 0 = now - started :=
      max_eq_left (sub_nonneg.mpr hnow)
    have heta_nonneg :
        0 ≤ (now - started) * (1 - min (max (processed / total) 0) 1)
          / min (max (processed / total) 0) 1 :=
      div_nonneg (mul_nonneg (sub_nonneg.mpr hnow) (sub_nonneg.mpr hfle)) (le_of_lt hfpos)
    simp only [apply_transcription_progress, if_pos h, if_pos hfrac]
    rw [helapsed, max_eq_left heta_nonneg]
  · intro h hfrac
    simp only [apply_transcription_progress, if_pos h, if_neg (not_lt.mpr hfrac)]

/-- Witness for C8: five seconds processed out of a hundred after ten seconds
of elapsed time yields fraction 1/20 and the claimed eta expression. -/
theorem c8_witness :
    (apply_transcription_progress 5 (some 100) 10 0).1
      = some (min (max ((5 : ℚ) / 100) 0) 1) ∧
    (apply_transcription_progress 5 (some 100) 10 0).2
      = some (((10 : ℚ) - 0) * (1 - min (max ((5 : ℚ) / 100) 0) 1)
          / min (max ((5 : ℚ) / 100) 0) 1) :=
  ⟨(c8_progress_eta 5 100 10 0).2.2.1 (by norm_num),
   (c8_progress_eta 5 100 10 0).2.2.2.1 (by norm_num) (by norm_num) (by norm_num)⟩

/-! ## Claim C9 — enqueue validation and batch report -/

/-- A supported, existing audio file. -/
def mp_good : MediaPath := ⟨"a.mp3", ".mp3", true⟩

/-- An existing file with an unsupported extension. -/
def mp_bad : MediaPath := ⟨"b.xyz", ".xyz", true⟩

/-- Counterexample for C9 as stated: the batch report does not carry the
count of rejected paths — adding one rejected path alongside one accepted
path produces exactly the same user-visible report as adding the accepted
path alone, although the rejected counts differ. -/
theorem c9_counterexample :
    (add_media_files [] 0 (fun _ => "id") [mp_good]).2
      = (add_media_files [] 0 (fun _ => "id") [mp_good, mp_bad]).2 ∧
    rejected_count [mp_good] = 0 ∧ rejected_count [mp_good, mp_bad] = 1 := by
  decide

/-- C9 (amended): every input path is validated against the fixed supported
extension set; when every path is rejected, no job is created and the
`unsupported` notice is reported; each appended job is a fresh `queued` job
for an accepted (existing, supported) path, one per accepted path; and the
report carries the count of accepted paths only. -/
theorem c9_enqueue_validates (items : List TranscriptHistoryItem) (now : ℚ)
    (mk_id : Nat → String) (paths : List MediaPath) :
    (media_candidates paths = [] →
       add_media_files items now mk_id paths = (items, .unsupported)) ∧
    (media_candidates paths ≠ [] →
       (add_media_files items now mk_id paths).2
         = .filesAdded (media_candidates paths).length) ∧
    ((add_media_files items now mk_id paths).1.length
       = items.length + (media_candidates paths).length) ∧
    (∀ j ∈ (add_media_files items now mk_id paths).1,
       j ∈ items ∨
       (j.state = .queued ∧ ∃ p ∈ paths,
          p.isFile = true ∧ is_supported_media_file p = true ∧
          j.source_file_path = p.path)) := by
  refine ⟨?_, ?_, ?_, ?_⟩
  · intro h
    simp [add_media_files, h]
  · intro h
    simp [add_media_files, List.isEmpty_iff, h]
  · by_cases h : media_candidates paths = []
    · simp [add_media_files, h]
    · simp [add_media_files, List.isEmpty_iff, h, List.enum_length]
  · intro j hj
    by_cases h : media_candidates paths = []
    · simp [add_media_files, h] at hj
      exact Or.inl hj
    · have hne : (media_candidates paths).isEmpty = false := by
        simpa [List.isEmpty_iff] using h
      simp only [add_media_files, hne, Bool.false_eq_true, if_false, List.mem_append] at hj
      rcases hj with hj | hj
      · exact Or.inl hj
      · right
        simp only [List.mem_map] at hj
        obtain ⟨x, hx, rfl⟩ := hj
        have hmem : x.2 ∈ media_candidates paths := mem_of_mem_enum hx
        have := List.mem_filter.mp hmem
        refine ⟨rfl, x.2, this.1, ?_, ?_, rfl⟩
        · exact (Bool.and_eq_true _ _).mp this.2 |>.1
        · exact (Bool.and_eq_true _ _).mp this.2 |>.2

/-- Witness for C9 (amended): one supported and one unsupported path yield
exactly one appended `queued` job and the accepted count 1; an unsupported
path alone yields no job and the `unsupported` notice. -/
theorem c9_witness :
    ((add_media_files [] 0 (fun _ => "id") [mp_good, mp_bad]).1.length = 0 + 1) ∧
    add_media_files [] 0 (fun _ => "id") [mp_bad] = ([], .unsupported) :=
  ⟨(c9_enqueue_validates [] 0 (fun _ => "id") [mp_good, mp_bad]).2.2.1.trans (by decide),
   (c9_enqueue_validates [] 0 (fun _ => "id") [mp_bad]).1 (by decide)⟩

/-! ## Claim C10 — success handler overwrites `created_at` -/

/-- C10: `_finish_history_item_success` rewrites exactly the finished job:
it sets `state = completed`, `transcript_path`, `detected_language`,
`model_id`, `progress_fraction = 1.0` — and overwrites `created_at` with the
completion timestamp, so the enqueue-time `created_at` is not preserved and
the most-recent-first display sort keys the completed job by completion
time. -/
theorem c10_success_overwrites_created_at (items pre post : List TranscriptHistoryItem)
    (i : TranscriptHistoryItem) (t : ℚ) (tp mid lang : String)
    (hsplit : items = pre ++ i :: post) (hpre : ∀ k ∈ pre, k.id ≠ i.id) :
    finish_history_item_success items i.id t tp mid lang
      = pre ++ success_mark t tp mid lang i :: post ∧
    (success_mark t tp mid lang i).created_at = t ∧
    (success_mark t tp mid lang i).state = .completed ∧
    (success_mark t tp mid lang i).transcript_path = some tp ∧
    (success_mark t tp mid lang i).detected_language = some lang ∧
    (success_mark t tp mid lang i).model_id = some mid ∧
    (success_mark t tp mid lang i).progress_fraction = some 1 ∧
    histSortKey (success_mark t tp mid lang i) = t ∧
    (t ≠ i.created_at → (success_mark t tp mid lang i).created_at ≠ i.created_at) := by
  refine ⟨?_, rfl, rfl, rfl, rfl, rfl, rfl, rfl, fun h => h⟩
  rw [hsplit]
  apply update_first_append
  · intro k hk
    simpa using hpre k hk
  · simp

/-- A queued job enqueued at time 3. -/
def queued_sample_item : TranscriptHistoryItem :=
  { id := "q", source_file_name := "c.mp3", source_file_path := "/c.mp3",
    created_at := 3, state := .queued }

/-- Witness for C10: finishing the concrete queued job (enqueued at time 3)
at completion time 50 rewrites its `created_at` to 50. -/
theorem c10_witness :
    finish_history_item_success [completed_sample_item, queued_sample_item] "q" 50 "/t/c.txt" "m" "en"
      = [completed_sample_item, success_mark 50 "/t/c.txt" "m" "en" queued_sample_item] ∧
    (success_mark 50 "/t/c.txt" "m" "en" queued_sample_item).created_at = 50 ∧
    (success_mark 50 "/t/c.txt" "m" "en" queued_sample_item).created_at
      ≠ queued_sample_item.created_at := by
  have h := c10_success_overwrites_created_at
    [completed_sample_item, queued_sample_item] [completed_sample_item] []
    queued_sample_item 50 "/t/c.txt" "m" "en" rfl (by decide)
  exact ⟨h.1, h.2.1, h.2.2.2.2.2.2.2.2 (by decide)⟩

/-! ## Claim C2 — which queued job `claim_next` picks -/

theorem claim_next_of_no_queued (l : List TranscriptHistoryItem)
    (h : ∀ i ∈ l, i.state ≠ .queued) : claim_next_queued_item l = (none, l) := by
  induction l with
  | nil => rfl
  | cons a rest ih =>
    have ha : a.state ≠ .queued := h a (by simp)
    simp only [claim_next_queued_item, if_neg ha]
    rw [ih (fun i hi => h i (by simp [hi]))]

theorem claim_next_split (pre : List TranscriptHistoryItem) (i : TranscriptHistoryItem)
    (post : List TranscriptHistoryItem) (hpre : ∀ k ∈ pre, k.state ≠ .queued)
    (hq : i.state = .queued) :
    claim_next_queued_item (pre ++ i :: post)
      = (some (claim_mark i), pre ++ claim_mark i :: post) := by
  induction pre with
  | nil => simp [claim_next_queued_item, hq]
  | cons a rest ih =>
    have ha : a.state ≠ .queued := hpre a (by simp)
    simp only [List.cons_append, claim_next_queued_item, if_neg ha]
    simp [ih (fun k hk => hpre k (by simp [hk]))]

/-- The older of two queued jobs (enqueued first, at time 1). -/
def older_queued_item : TranscriptHistoryItem :=
  { id := "first", source_file_name := "a.mp3", source_file_path := "/a.mp3",
    created_at := 1, state := .queued }

/-- The newer of two queued jobs (enqueued second, at time 2). -/
def newer_queued_item : TranscriptHistoryItem :=
  { id := "second", source_file_name := "b.mp3", source_file_path := "/b.mp3",
    created_at := 2, state := .queued }

/-- Counterexample for C2 as stated: with two queued jobs enqueued at times 1
and 2, the collection is kept in the reverse-chronological display order by
`_sort_history`, and `_claim_next_queued_item` — which takes the first queued
item in list order — claims the job enqueued *second* (LIFO), not the oldest
one. -/
theorem c2_counterexample :
    ((claim_next_queued_item (sort_history [older_queued_item, newer_queued_item])).1).map
        (fun i => i.id) = some "second" ∧
    older_queued_item.state = .queued ∧
    older_queued_item.created_at < newer_queued_item.created_at := by
  decide

/-- C2 (amended): when no job is queued, `claim_next` returns none and leaves
every job unchanged; on a collection in the display order (sorted most recent
first, as `_sort_history` keeps it), it claims the *newest* still-queued job —
the first queued item in reverse-chronological order, i.e. LIFO rather than
FIFO — transitions exactly that job to `processing`, and touches no other
job. -/
theorem c2_claim_next_newest (m : List TranscriptHistoryItem) :
    ((sort_history m).Sorted histOrder) ∧
    (∀ l : List TranscriptHistoryItem, (∀ i ∈ l, i.state ≠ .queued) →
       claim_next_queued_item l = (none, l)) ∧
    (∀ l pre post : List TranscriptHistoryItem, ∀ i : TranscriptHistoryItem,
       l.Sorted histOrder → l = pre ++ i :: post →
       (∀ k ∈ pre, k.state ≠ .queued) → i.state = .queued →
       claim_next_queued_item l = (some (claim_mark i), pre ++ claim_mark i :: post) ∧
       (claim_mark i).state = .processing ∧
       (∀ k ∈ l, k.state = .queued → k.created_at ≤ i.created_at)) := by
  refine ⟨List.sorted_insertionSort histOrder m, claim_next_of_no_queued, ?_⟩
  intro l pre post i hsorted hsplit hpre hq
  subst hsplit
  refine ⟨claim_next_split pre i post hpre hq, rfl, ?_⟩
  intro k hk hkq
  rcases List.mem_append.mp hk with hk | hk
  · exact absurd hkq (hpre k hk)
  · rcases List.mem_cons.mp hk with rfl | hk
    · exact le_refl _
    · have hsuffix : List.Sorted histOrder (i :: post) :=
        (List.pairwise_append.mp hsorted).2.1
      exact List.rel_of_sorted_cons hsuffix k hk

/-- Witness for C2 (amended): on the concrete sorted two-job queue the newer
job is claimed, marked `processing`, and dominates every queued job's
timestamp. -/
theorem c2_witness :
    claim_next_queued_item [newer_queued_item, older_queued_item]
      = (some (claim_mark newer_queued_item),
         [claim_mark newer_queued_item, older_queued_item]) ∧
    (claim_mark newer_queued_item).state = .processing ∧
    (∀ k ∈ [newer_queued_item, older_queued_item],
       k.state = .queued → k.created_at ≤ newer_queued_item.created_at) := by
  have h := (c2_claim_next_newest []).2.2
    [newer_queued_item, older_queued_item] [] [older_queued_item] newer_queued_item
    (by constructor <;> simp [histOrder, histSortKey, older_queued_item, newer_queued_item]) rfl
    (by simp) rfl
  exact ⟨h.1, h.2.1, h.2.2⟩

/-! ## Claim C4 — worker outcome classification -/

/-- A terminal message reporting an application failure. -/
def app_error_payload : WorkerPayload :=
  { ok := false, error := some "E", details := some "D" }

/-- Counterexample for C4 as stated: with a non-zero exit code *and* a
terminal `ok=false` message carrying error `"E"`, the code reports the
payload's error message (the `ApplicationError` shape), not a diagnostic
built from the buffered standard-error tail `"boom"` — the non-zero exit
code does not force a stderr-based `ProtocolError`. -/
theorem c4_counterexample :
    classify_worker_result 1 (some app_error_payload) "boom" "Transcription failed."
      = .failure "E" "D" ∧
    py_strip "boom" = "boom" ∧ ("E" : String) ≠ "boom" := by
  decide

/-- C4 (amended): classification of a worker invocation — `Success` carries
the payload and requires exit code 0 with a terminal `ok=true` message; any
non-zero exit code precludes success; termination with no terminal message
observed yields a failure whose diagnostic is the stripped standard-error
tail (with a localized fallback when stderr is empty); and a terminal
message with `ok=false` and a non-empty error yields a failure carrying its
error message and details — taking precedence over the stderr diagnostic
even when the exit code is non-zero. -/
theorem c4_outcome_classification (exit_code : Int) (p : WorkerPayload) (st fb : String) :
    (p.ok = true → classify_worker_result 0 (some p) st fb = .success p) ∧
    (∀ ec : Int, classify_worker_result ec none st fb
       = .failure (py_or (py_strip st) fb) "") ∧
    (py_strip st ≠ "" →
       classify_worker_result exit_code none st fb = .failure (py_strip st) "") ∧
    (p.ok = false → ∀ e, p.error = some e → e ≠ "" →
       classify_worker_result exit_code (some p) st fb = .failure e (p.details.getD "")) ∧
    (exit_code ≠ 0 → ∀ q : WorkerPayload, ∀ fp : Option WorkerPayload,
       classify_worker_result exit_code fp st fb ≠ .success q) := by
  refine ⟨?_, fun _ => rfl, ?_, ?_, ?_⟩
  · intro h
    simp [classify_worker_result, h]
  · intro h
    simp [classify_worker_result, py_or, h]
  · intro hok e he hne
    have hcond : ¬(exit_code = 0 ∧ p.ok = true) := by simp [hok]
    simp [classify_worker_result, hcond, py_str_of_get, he, py_or, hne]
  · intro hec q fp
    cases fp with
    | none => simp [classify_worker_result]
    | some p' =>
      have hcond : ¬(exit_code = 0 ∧ p'.ok = true) := by simp [hec]
      simp [classify_worker_result, hcond]

/-- A successful terminal message. -/
def ok_payload : WorkerPayload :=
  { ok := true, text := some "hello", model_id := some "m", language := some "en" }

/-- Witness for C4 (amended): exit 0 with an `ok=true` terminal message is a
success carrying the payload; exit 1 with no terminal message is a failure
whose diagnostic is the stripped stderr tail. -/
theorem c4_witness :
    classify_worker_result 0 (some ok_payload) "" "tf" = .success ok_payload ∧
    classify_worker_result 1 none " boom\n" "tf" = .failure (py_strip " boom\n") "" :=
  ⟨(c4_outcome_classification 0 ok_payload "" "tf").1 rfl,
   (c4_outcome_classification 1 ok_payload " boom\n" "tf").2.2.1 (by decide)⟩

/-! ## Claim C3 — partial-batch failure tolerance -/

theorem update_first_countP_le {α : Type} (p : α → Bool) (f : α → α) (pr : α → Bool)
    (hf : ∀ a, pr (f a) = false) (l : List α) :
    (update_first p f l).countP pr ≤ l.countP pr := by
  induction l with
  | nil => exact le_refl _
  | cons a rest ih =>
    by_cases hp : p a
    · simp only [update_first, hp, if_true, List.countP_cons, hf a,
        Bool.false_eq_true, if_false]
      omega
    · simp only [update_first, hp, Bool.false_eq_true, if_false, List.countP_cons]
      omega

theorem claim_next_fst_none (l : List TranscriptHistoryItem)
    (h : (claim_next_queued_item l).1 = none) :
    (claim_next_queued_item l).2 = l ∧ count_queued l = 0 := by
  induction l with
  | nil => exact ⟨rfl, rfl⟩
  | cons a rest ih =>
    by_cases hq : a.state = .queued
    · simp [claim_next_queued_item, hq] at h
    · simp only [claim_next_queued_item, if_neg hq] at h ⊢
      obtain ⟨h2, h0⟩ := ih h
      refine ⟨by rw [h2], ?_⟩
      simp only [count_queued, List.countP_cons] at h0 ⊢
      simp [h0, hq]

theorem claim_next_fst_some (l : List TranscriptHistoryItem) (j : TranscriptHistoryItem)
    (h : (claim_next_queued_item l).1 = some j) :
    count_queued ((claim_next_queued_item l).2) + 1 = count_queued l := by
  induction l with
  | nil => simp [claim_next_queued_item] at h
  | cons a rest ih =>
    by_cases hq : a.state = .queued
    · simp only [claim_next_queued_item, if_pos hq, count_queued, List.countP_cons]
      have hm : decide ((claim_mark a).state = JobState.queued) = false := by
        simp [claim_mark]
      simp [hm, hq]
    · simp only [claim_next_queued_item, if_neg hq] at h ⊢
      have := ih h
      simp only [count_queued, List.countP_cons] at this ⊢
      simp only [hq, decide_eq_true_eq, if_neg]
      omega

theorem run_batch_step_count_le (env : BatchEnv) (j : TranscriptHistoryItem)
    (l : List TranscriptHistoryItem) :
    count_queued (run_batch_step env j l) ≤ count_queued l := by
  unfold run_batch_step
  split
  · split
    · exact update_first_countP_le _ _ _ (fun a => by simp [success_mark]) l
    · exact update_first_countP_le _ _ _ (fun a => by simp [failure_mark]) l
  · exact update_first_countP_le _ _ _ (fun a => by simp [failure_mark]) l

theorem run_batch_loop_drains (env : BatchEnv) (fuel : Nat)
    (items : List TranscriptHistoryItem) (h : count_queued items ≤ fuel) :
    count_queued (run_batch_loop env fuel items) = 0 := by
  induction fuel generalizing items with
  | zero =>
    simp only [run_batch_loop]
    omega
  | succ n ih =>
    simp only [run_batch_loop]
    cases hc : (claim_next_queued_item items).1 with
    | none =>
      obtain ⟨h2, h0⟩ := claim_next_fst_none items hc
      have : claim_next_queued_item items = (none, items) := by
        cases hcc : claim_next_queued_item items
        simp_all
      rw [this]
      exact h0
    | some j =>
      have hcount := claim_next_fst_some items j hc
      have hstep := run_batch_step_count_le env j ((claim_next_queued_item items).2)
      have : claim_next_queued_item items = (some j, (claim_next_queued_item items).2) := by
        cases hcc : claim_next_queued_item items
        simp_all
      rw [this]
      exact ih _ (by omega)

/-- A queued demo job. -/
def demo_job (idv : String) (t : ℚ) : TranscriptHistoryItem :=
  { id := idv, source_file_name := idv, source_file_path := "/" ++ idv,
    created_at := t, state := .queued }

/-- The three-job batch in display order (newest first), jobs enqueued at
times 1, 2, 3. -/
def demo_items : List TranscriptHistoryItem :=
  [demo_job "j3" 3, demo_job "j2" 2, demo_job "j1" 1]

/-- A batch environment in which every source file exists and the worker
succeeds on every job except `"j2"`, whose invocation returns a terminal
`ok=false` message with error `"boom"`. -/
def demo_env : BatchEnv :=
  { file_exists := fun _ => true
    worker_exit := fun _ => 0
    worker_payload := fun s =>
      if s = "j2" then some { ok := false, error := some "boom" }
      else some { ok := true, text := some "hello", model_id := some "m", language := some "en" }
    worker_stderr := fun _ => ""
    finish_time := fun _ => 100
    transcript_path_for := fun s => "/t/" ++ s ++ ".txt"
    missing_message := fun n => "File is missing: " ++ n
    fallback_message := "Transcription failed."
    model_reference_id := "mref" }

/-- C3: the batch loop never aborts on a single job failure — for any
environment it runs until `claim_next` finds no queued job, leaving zero
queued jobs; in the concrete 3-job batch where job `"j2"`'s worker
invocation returns `ok=false`, jobs `"j1"` and `"j3"` reach `completed`,
job `"j2"` reaches `failed` carrying the worker's error, and no queued
entry remains. -/
theorem c3_single_failure_does_not_abort :
    (∀ env : BatchEnv, ∀ fuel : Nat, ∀ items : List TranscriptHistoryItem,
       count_queued items ≤ fuel → count_queued (run_batch_loop env fuel items) = 0) ∧
    ((transcribe_all_queued_files demo_env demo_items).map (fun i => (i.id, i.state))
       = [("j3", .completed), ("j2", .failed), ("j1", .completed)]) ∧
    (∀ j ∈ transcribe_all_queued_files demo_env demo_items,
       j.id = "j2" → j.error_message = some "boom") ∧
    count_queued (transcribe_all_queued_files demo_env demo_items) = 0 := by
  refine ⟨run_batch_loop_drains, by decide, by decide, by decide⟩

/-- Witness for C3: surplus fuel still drains the concrete queue to zero
queued entries. -/
theorem c3_witness : count_queued (run_batch_loop demo_env 5 demo_items) = 0 :=
  c3_single_failure_does_not_abort.1 demo_env 5 demo_items (by decide)

/-! ## Claim C1 — the single-`processing` invariant -/

/-- Counterexample for C1 as stated: the interleaving
enqueue, enqueue, claim_next, claim_next — with no terminal transition
between the two claims — starts from a state with no `processing` job and
ends with *two* `processing` jobs.  The store operations themselves never
prevent it, and the program realises this order because the worker loop
posts each terminal transition to the UI queue and can claim the next job
before the posted transition runs. -/
theorem c1_counterexample :
    count_processing [] = 0 ∧
    count_processing
      (exec_store_ops
        [.enqueueOp older_queued_item, .enqueueOp newer_queued_item, .claimOp, .claimOp]
        []) = 2 := by
  decide

theorem claim_next_count_processing_le (l : List TranscriptHistoryItem) :
    count_processing ((claim_next_queued_item l).2) ≤ count_processing l + 1 := by
  induction l with
  | nil => simp [claim_next_queued_item, count_processing]
  | cons a rest ih =>
    by_cases hq : a.state = .queued
    · simp only [claim_next_queued_item, if_pos hq, count_processing, List.countP_cons]
      have hm : decide ((claim_mark a).state = JobState.processing) = true := by
        simp [claim_mark]
      simp only [hm, if_true]
      omega
    · simp only [claim_next_queued_item, if_neg hq, count_processing, List.countP_cons]
      simp only [count_processing] at ih
      omega

theorem delete_count_processing_le (l : List TranscriptHistoryItem) (sel : Option String) :
    count_processing ((delete_selected_history_item l sel).2) ≤ count_processing l := by
  unfold delete_selected_history_item
  cases sel with
  | none => exact Nat.le_refl _
  | some sid =>
    cases hfind : (l.find? (fun i => i.id == sid)) with
    | none =>
      simp only [hfind]
      exact Nat.le_refl _
    | some item =>
      by_cases hp : item.state = .processing
      · simp [hfind, hp]
      · simp only [hfind, if_neg hp]
        exact (List.filter_sublist l).countP_le _

/-- Every guarded step preserves "at most one `processing` job". -/
theorem guarded_step_preserves (b c : List TranscriptHistoryItem)
    (hstep : GuardedStoreStep b c) (hb : count_processing b ≤ 1) :
    count_processing c ≤ 1 := by
  cases hstep with
  | enqueue item =>
    simp only [exec_store_op, count_processing, List.countP_append] at *
    simp_all [List.countP_cons]
  | claim h =>
    have := claim_next_count_processing_le b
    simp only [exec_store_op]
    omega
  | finishSuccess item_id completed_at tp mid language =>
    have := update_first_countP_le (fun i => i.id == item_id)
      (success_mark completed_at tp mid language)
      (fun i => decide (i.state = .processing))
      (fun a => by simp [success_mark]) b
    simpa only [exec_store_op, finish_history_item_success, count_processing] using
      le_trans this hb
  | finishFailure item_id msg =>
    have := update_first_countP_le (fun i => i.id == item_id) (failure_mark msg)
      (fun i => decide (i.state = .processing))
      (fun a => by simp [failure_mark]) b
    simpa only [exec_store_op, finish_history_item_failure, count_processing] using
      le_trans this hb
  | deleteStep selected_id =>
    have := delete_count_processing_le b (some selected_id)
    simp only [exec_store_op]
    omega
  | resort =>
    have hperm : List.Perm (sort_history b) b := List.perm_insertionSort histOrder b
    simp only [exec_store_op, count_processing]
    rw [hperm.countP_eq]
    exact hb

/-- C1 (amended): in any interleaving of store operations in which every
`claim_next` call occurs in a state with no `processing` job — the
discipline the single busy-guarded worker loop enforces whenever each posted
terminal transition has been applied before the next claim — at most one job
is `processing` at every instant, starting from a state with none.  The
unguarded operations do not enforce this (see the counterexample): two
consecutive claims without an intervening terminal transition, an order the
asynchronous UI bridge makes realisable, yield two `processing` jobs. -/
theorem c1_single_processing_guarded (s0 s : List TranscriptHistoryItem)
    (hreach : GuardedReachable s0 s) (h0 : count_processing s0 = 0) :
    count_processing s ≤ 1 := by
  have h1 : count_processing s0 ≤ 1 := by omega
  clear h0
  induction hreach with
  | refl => exact h1
  | tail _ hstep ih => exact guarded_step_preserves _ _ hstep ih

/-- Witness for C1 (amended): enqueue then one guarded claim, starting from
the empty collection, reaches a state with at most one `processing` job. -/
theorem c1_witness :
    count_processing (exec_store_op .claimOp (exec_store_op (.enqueueOp older_queued_item) []))
      ≤ 1 :=
  c1_single_processing_guarded [] _
    (Relation.ReflTransGen.tail
      (Relation.ReflTransGen.single (GuardedStoreStep.enqueue older_queued_item []))
      (GuardedStoreStep.claim _ (by decide)))
    rfl

end GZWhisper
